import Mathlib

/-!
Shallow embedding of the core of the waffle tracing library
(mpsc_ring_buffer.hpp, waffle_common_types.hpp, waffle_context.hpp and the
tracer implementation file), together with proofs about the embedded
operations.  Machine integers (uint64_t, size_t) are modelled as Nat with an
explicit reduction modulo 2 ^ 64 at the points where the C++ arithmetic can
wrap.
-/

namespace Waffle

/-- Number of values of a 64-bit machine word (size_t / uint64_t width). -/
def wordSize : Nat := 2 ^ 64

/-- The reserved invalid identifier sentinel, kInvalidId with value 0
(waffle_common_types.hpp).  Identifiers are modelled as Nat values. -/
def kInvalidId : Nat := 0

/-- One step of the 64-bit FNV-1a hash: xor in a byte, multiply by the FNV
prime, reduce modulo 2 ^ 64 (the uint64_t multiplication wraps). -/
def fnv1aStep (h b : Nat) : Nat := ((h ^^^ b) * 0x100000001b3) % wordSize

/-- The 64-bit FNV-1a hash of fnv1a_hash in waffle_common_types.hpp, with
offset basis 0xcbf29ce484222325.  C++ strings are modelled as lists of byte
values. -/
def fnv1a (s : List Nat) : Nat := s.foldl fnv1aStep 0xcbf29ce484222325

/-- Tracelet::RecordType (waffle_context.hpp). -/
inductive RecordType where
  | SPAN_START
  | SPAN_END
  | EVENT
deriving DecidableEq

/-- AttributeValue (waffle_common_types.hpp): a tagged union over bool,
int64_t, double and an interned string hash.  The double payload is a
floating-point number and is not modelled; only its tag is kept. -/
inductive AttributeValue where
  | boolVal (b : Bool)
  | intVal (i : Int)
  | doubleVal
  | stringIdVal (h : Nat)
deriving DecidableEq

/-- Attribute (waffle_common_types.hpp): an interned key hash paired with a
tagged value. -/
structure Attribute where
  key_id : Nat
  value : AttributeValue
deriving DecidableEq

/-- MAX_ATTRIBUTES_PER_TRACELET (waffle_common_types.hpp). -/
def MAX_ATTRIBUTES_PER_TRACELET : Nat := 6

/-- Tracelet (waffle_context.hpp).  The fixed inline attribute array together
with num_attributes is modelled as the list of its first num_attributes
entries; the entries beyond num_attributes are value-initialised in the
source and carry no information. -/
structure Tracelet where
  timestamp : Nat
  trace_id : Nat
  span_id : Nat
  parent_span_id : Nat
  cause_id : Nat
  name_string_hash : Nat
  record_type : RecordType
  attributes : List Attribute
deriving DecidableEq

instance : Inhabited Tracelet :=
  ⟨⟨0, 0, 0, 0, 0, 0, RecordType.EVENT, []⟩⟩

/-- StaticStringSource (waffle_common_types.hpp): a string literal together
with its FNV-1a hash, computed by the constructor. -/
structure StaticStringSource where
  hash : Nat
  str : List Nat

/-- The StaticStringSource constructor: the stored hash is the FNV-1a hash of
the literal. -/
def mkStaticStringSource (s : List Nat) : StaticStringSource := ⟨fnv1a s, s⟩

/-! ## The MPSC ring buffer (mpsc_ring_buffer.hpp)

next_power_of_two smears the high bit of n - 1 across all lower positions
with six shift-or steps and then adds one.  All intermediate values stay
below 2 ^ 64 for a size_t input; only the final increment can wrap, which the
explicit reduction modulo 2 ^ 64 captures. -/

/-- One shift-or step of next_power_of_two: v |= v >> k. -/
def smearStep (v k : Nat) : Nat := v ||| (v >>> k)

/-- The six shift-or steps of next_power_of_two for a 64-bit size_t
(shifts by 1, 2, 4, 8, 16 and 32). -/
def smear (v : Nat) : Nat :=
  smearStep (smearStep (smearStep (smearStep (smearStep (smearStep v 1) 2) 4) 8) 16) 32

/-- next_power_of_two (mpsc_ring_buffer.hpp): inputs of at most 1 give 2,
otherwise the bit-smear of n - 1 plus one, computed in size_t arithmetic. -/
def next_power_of_two (n : Nat) : Nat :=
  if n ≤ 1 then 2 else (smear (n - 1) + 1) % wordSize

/-- The state of MpscRingBuffer of T.  The slot array and the per-slot ready
flags are modelled as total functions from slot indices; head and tail are
the monotonic counters.  In the source both counters are size_t values that
wrap modulo 2 ^ 64; the two ways they are consumed, the difference tail -
head and the masked index i and mask, depend only on the counters modulo
2 ^ 64 (the mask plus one divides 2 ^ 64), so the unbounded counters used
here refine the wrapped ones for any run in which fewer than 2 ^ 64 records
are in flight, which the capacity bound guarantees. -/
structure RingState (T : Type) where
  capacity : Nat
  mask : Nat
  buffer : Nat → T
  readyFlags : Nat → Bool
  head : Nat
  tail : Nat

/-- A freshly constructed ring of a given (already rounded) capacity: all
ready flags false, both counters zero.  The mask is capacity - 1 computed in
size_t arithmetic (for capacity 0, which next_power_of_two can produce by
wrapping, this is 2 ^ 64 - 1, as in the source). -/
def freshRing (T : Type) [Inhabited T] (cap : Nat) : RingState T :=
  { capacity := cap
    mask := (cap + (wordSize - 1)) % wordSize
    buffer := fun _ => default
    readyFlags := fun _ => false
    head := 0
    tail := 0 }

/-- The MpscRingBuffer constructor: zero capacity throws
std::invalid_argument, otherwise the capacity is rounded up with
next_power_of_two. -/
def mkRing (T : Type) [Inhabited T] (n : Nat) : Except String (RingState T) :=
  if n = 0 then Except.error "Capacity cannot be zero."
  else Except.ok (freshRing T (next_power_of_two n))

/-- try_emplace under the sequential (uncontended single producer) semantics:
the compare-and-swap on tail succeeds on the first attempt.  Full when tail -
head has reached the capacity; otherwise the record is constructed in slot
tail and mask and its ready flag is set. -/
def tryEmplace {T : Type} (s : RingState T) (v : T) : Bool × RingState T :=
  if s.capacity ≤ s.tail - s.head then (false, s)
  else
    (true,
      { s with
        buffer := fun i => if i = (s.tail &&& s.mask) then v else s.buffer i
        readyFlags := fun i => if i = (s.tail &&& s.mask) then true else s.readyFlags i
        tail := s.tail + 1 })

/-- try_pop: nothing when head equals tail; otherwise the record at slot head
and mask is handed out if its ready flag is set, the flag is reset and head
advances.  The slot's raw storage keeps its old contents after the in-place
destructor call, as in the source. -/
def tryPop {T : Type} (s : RingState T) : Option T × RingState T :=
  if s.head = s.tail then (none, s)
  else if s.readyFlags (s.head &&& s.mask) then
    (some (s.buffer (s.head &&& s.mask)),
      { s with
        readyFlags := fun i => if i = (s.head &&& s.mask) then false else s.readyFlags i
        head := s.head + 1 })
  else (none, s)

/-- The abstract queue contents of a ring state: the records in the claimed
slots from head (inclusive) to tail (exclusive), in claim order. -/
def absList {T : Type} (s : RingState T) : List T :=
  (List.range (s.tail - s.head)).map (fun j => s.buffer ((s.head + j) &&& s.mask))

/-- Run k consecutive try_emplace calls of the default value; some final
state if all succeed, none as soon as one fails. -/
def emplaceRun {T : Type} [Inhabited T] : RingState T → Nat → Option (RingState T)
  | s, 0 => some s
  | s, k + 1 =>
    let r := tryEmplace s default
    if r.1 then emplaceRun r.2 k else none

/-- A sequential producer/consumer script step: one try_emplace of a value or
one try_pop. -/
inductive RingOp (T : Type) where
  | push (v : T)
  | pop

/-- Result of running a script: final ring state, the values whose
try_emplace succeeded (in call order) and the values returned by successful
try_pop calls (in call order). -/
structure RunResult (T : Type) where
  state : RingState T
  pushed : List T
  popped : List T

/-- Run a script of sequential try_emplace / try_pop calls. -/
def runOps {T : Type} : RingState T → List (RingOp T) → RunResult T
  | s, [] => ⟨s, [], []⟩
  | s, RingOp.push v :: rest =>
    let r := tryEmplace s v
    let res := runOps r.2 rest
    { res with pushed := if r.1 then v :: res.pushed else res.pushed }
  | s, RingOp.pop :: rest =>
    let r := tryPop s
    let res := runOps r.2 rest
    { res with
      popped := match r.1 with | some v => v :: res.popped | none => res.popped }

/-- The capacity rounding required by the spec: the requested capacity
rounded up to the next power of two with a floor of 2.  2 ^ clog 2 m is the
least power of two that is at least m. -/
def specNextPow2 (n : Nat) : Nat := 2 ^ Nat.clog 2 (max 2 n)

/-! ## The string interner (implementation file) -/

/-- Keyed lookup in an association list, the model of unordered_map and
std::map find / count / at. -/
def lookupKey {A : Type} (k : Nat) : List (Nat × A) → Option A
  | [] => none
  | kv :: rest => if k = kv.1 then some kv.2 else lookupKey k rest

/-- The interner table, unordered_map from uint64_t hash to owning string. -/
abbrev StringMap := List (Nat × List Nat)

/-- unordered_map emplace: insert only when the key is not yet present; an
existing mapping is left untouched. -/
def emplaceStr (m : StringMap) (h : Nat) (s : List Nat) : StringMap :=
  match lookupKey h m with
  | some _ => m
  | none => (h, s) :: m

/-- Tracer::register_static_string: an emplace into the table under the
string mutex. -/
def register_static_string (m : StringMap) (h : Nat) (str : List Nat) : StringMap :=
  emplaceStr m h str

/-- Tracer::get_string_id(const StaticStringSource): registers the
precomputed hash and returns it. -/
def get_string_id_static (m : StringMap) (src : StaticStringSource) : Nat × StringMap :=
  (src.hash, register_static_string m src.hash src.str)

/-- Tracer::get_string_id(std::string_view): hashes the string with FNV-1a,
emplaces it, and returns the hash. -/
def get_string_id_dyn (m : StringMap) (s : List Nat) : Nat × StringMap :=
  let h := fnv1a s
  (h, emplaceStr m h s)

/-- One mutation of the interner table: a register_static_string call or one
of the two get_string_id overloads. -/
inductive InternOp where
  | regStatic (h : Nat) (str : List Nat)
  | getStatic (src : StaticStringSource)
  | getDyn (s : List Nat)

/-- Apply one interner mutation to the table. -/
def applyIntern (m : StringMap) : InternOp → StringMap
  | InternOp.regStatic h str => register_static_string m h str
  | InternOp.getStatic src => (get_string_id_static m src).2
  | InternOp.getDyn s => (get_string_id_dyn m s).2

/-- Apply a sequence of interner mutations in order. -/
def applyInterns (m : StringMap) (l : List InternOp) : StringMap :=
  l.foldl applyIntern m

/-! ## The scoped span handle (class Span) -/

/-- The fields of a Span handle (waffle_context.hpp).  The tracer pointer is
modelled by whether it is non-null. -/
structure SpanH where
  hasTracer : Bool
  trace_id : Nat
  span_id : Nat
  parent_span_id : Nat
  is_ended : Bool
deriving DecidableEq

/-- The private Span constructor Span(tracer, trace, span, parent): an active
handle holding a live tracer pointer.  The constructor also installs the
handle's own identifier as the thread's ambient span id; that effect is
ambientAfterCtor. -/
def spanFromCtor (t sp p : Nat) : SpanH :=
  { hasTracer := true, trace_id := t, span_id := sp, parent_span_id := p,
    is_ended := false }

/-- A default-constructed Span: null tracer, invalid ids, not ended. -/
def spanDefault : SpanH :=
  { hasTracer := false, trace_id := kInvalidId, span_id := kInvalidId,
    parent_span_id := kInvalidId, is_ended := false }

/-- The ambient span id after the Span constructor body runs:
context::set_current_span_id(_span_id).  The previous ambient value is not
read or stored anywhere. -/
def ambientAfterCtor (h : SpanH) (_amb : Nat) : Nat := h.span_id

/-- Span::end(): returns immediately when already ended or when the tracer
pointer is null; otherwise calls Tracer::end_span(_trace_id, _span_id) and
marks the handle ended.  The second component lists the end_span calls made
(trace id, span id pairs). -/
def spanEnd (h : SpanH) : SpanH × List (Nat × Nat) :=
  if h.is_ended || !h.hasTracer then (h, [])
  else ({ h with is_ended := true }, [(h.trace_id, h.span_id)])

/-- The ambient span id after Span::end():
context::set_current_span_id(_parent_span_id) when the end actually runs,
unchanged on the early return. -/
def ambientAfterEnd (h : SpanH) (amb : Nat) : Nat :=
  if h.is_ended || !h.hasTracer then amb else h.parent_span_id

/-- Span::~Span(): runs end() when the handle is active (not ended, tracer
non-null); the emitted end_span calls. -/
def spanDtorEmits (h : SpanH) : List (Nat × Nat) :=
  if !h.is_ended && h.hasTracer then (spanEnd h).2 else []

/-- Span move construction: the target takes over every field; the source is
left with a null tracer pointer and marked ended. -/
def spanMove (h : SpanH) : SpanH × SpanH :=
  (h, { h with hasTracer := false, is_ended := true })

/-- Operations a user can perform on one handle lineage before it is finally
destroyed: an explicit end() call, or a move (the lineage continues in the
move target while the source is destroyed separately). -/
inductive SpanOp where
  | endCall
  | moveAway

/-- Run a sequence of operations on one handle lineage and finally destroy
it; count every Tracer::end_span call made on the way (including those of
destructors of moved-from sources). -/
def lineageEmits (h : SpanH) : List SpanOp → Nat
  | [] => (spanDtorEmits h).length
  | SpanOp.endCall :: rest =>
      let r := spanEnd h
      r.2.length + lineageEmits r.1 rest
  | SpanOp.moveAway :: rest =>
      let r := spanMove h
      (spanDtorEmits r.2).length + lineageEmits r.1 rest

/-- A well-nested single-thread usage pattern of scoped span handles: nil is
no spans, node inner rest opens one span, runs inner inside it, ends the
span, then runs rest after it. -/
inductive Nest where
  | nil
  | node (inner rest : Nest)

/-- Execute a nesting pattern on one thread, threading the ambient span id
and a fresh-id counter.  Each opened span receives the current ambient id as
its parent (as the WAFFLE_SPAN macro does by passing
context::get_current_span_id()), installs its own id as ambient, and on end
sets the ambient to its parent id. -/
def runForest (amb nid : Nat) : Nest → Nat × Nat
  | Nest.nil => (amb, nid)
  | Nest.node inner rest =>
      let h := spanFromCtor nid nid amb
      let amb1 := ambientAfterCtor h amb
      let r1 := runForest amb1 (nid + 1) inner
      let amb2 := ambientAfterEnd h r1.1
      runForest amb2 r1.2 rest

/-! ## The Tracer hot path (waffle_context.hpp; end_span from the
implementation file) -/

/-- The Tracer state touched by the hot path: the monotonic id counter
(atomic uint64_t, initial value 1), the tracelet ring (the Tracer
constructor builds it with capacity 8192), the shutdown flag, and the
interner table (seeded with the empty string at hash 0). -/
structure TracerState where
  next_id : Nat
  queue : RingState Tracelet
  shutdown_flag : Bool
  id_to_string_map : StringMap

/-- The Tracer constructor state (before the worker thread runs). -/
def tracerInit : TracerState :=
  { next_id := 1
    queue := freshRing Tracelet (next_power_of_two 8192)
    shutdown_flag := false
    id_to_string_map := [(0, [])] }

/-- detail::extract_attributes: collect the attribute arguments left to
right, keeping at most the inline capacity and silently dropping the excess;
returns the kept attributes and their count.  CausedBy tags are filtered out
before this point, so the argument list is modelled as a list of
attributes. -/
def extract_attributes (args : List Attribute) : List Attribute × Nat :=
  (args.take MAX_ATTRIBUTES_PER_TRACELET, min args.length MAX_ATTRIBUTES_PER_TRACELET)

/-- Tracer::start_span (waffle_context.hpp, StaticStringSource overload; the
stale template bodies in the implementation file are superseded by the
header per its comment).  Dispenses a new id, derives the trace id — the
source aliases the parent span id into the trace id of a non-root span, as
its own TODO comment records — and, unless the shutdown flag is set,
registers the name and enqueues a span-start tracelet.  now is the timestamp
produced by get_timestamp. -/
def start_span (st : TracerState) (now : Nat) (name : StaticStringSource)
    (parent_span_id cause_id : Nat) (attr_args : List Attribute) :
    TracerState × SpanH :=
  let new_id := st.next_id
  let st1 := { st with next_id := (st.next_id + 1) % wordSize }
  let trace_id_for_new_span :=
    if parent_span_id ≠ kInvalidId then parent_span_id else new_id
  let ea := extract_attributes attr_args
  if st1.shutdown_flag = false then
    let st2 := { st1 with
      id_to_string_map := register_static_string st1.id_to_string_map name.hash name.str }
    let q := tryEmplace st2.queue
      { timestamp := now, trace_id := trace_id_for_new_span, span_id := new_id,
        parent_span_id := parent_span_id, cause_id := cause_id,
        name_string_hash := name.hash, record_type := RecordType.SPAN_START,
        attributes := ea.1 }
    ({ st2 with queue := q.2 },
      spanFromCtor trace_id_for_new_span new_id parent_span_id)
  else
    (st1, spanFromCtor trace_id_for_new_span new_id parent_span_id)

/-- Tracer::create_event (waffle_context.hpp).  The source passes the parent
span id both as the tracelet's span id and as its parent id; the dispensed
event id is not stored in the tracelet. -/
def create_event (st : TracerState) (now : Nat) (name : StaticStringSource)
    (parent_span_id cause_id : Nat) (attr_args : List Attribute) : TracerState :=
  let st1 := { st with next_id := (st.next_id + 1) % wordSize }
  let trace_id_for_event :=
    if parent_span_id ≠ kInvalidId then parent_span_id else kInvalidId
  let ea := extract_attributes attr_args
  if st1.shutdown_flag = false then
    let st2 := { st1 with
      id_to_string_map := register_static_string st1.id_to_string_map name.hash name.str }
    let q := tryEmplace st2.queue
      { timestamp := now, trace_id := trace_id_for_event, span_id := parent_span_id,
        parent_span_id := parent_span_id, cause_id := cause_id,
        name_string_hash := name.hash, record_type := RecordType.EVENT,
        attributes := ea.1 }
    { st2 with queue := q.2 }
  else st1

/-- Tracer::end_span (implementation file): enqueues a span-end tracelet
with invalid parent and cause ids and name hash 0.  Unlike start_span and
create_event, the body contains no check of the shutdown flag. -/
def end_span (st : TracerState) (now trace_id span_id : Nat) : TracerState :=
  let q := tryEmplace st.queue
    { timestamp := now, trace_id := trace_id, span_id := span_id,
      parent_span_id := kInvalidId, cause_id := kInvalidId,
      name_string_hash := 0, record_type := RecordType.SPAN_END,
      attributes := [] }
  { st with queue := q.2 }

/-- Tracer::shutdown: stores true into the shutdown flag (the join of the
worker thread is not part of the state). -/
def tracer_shutdown (st : TracerState) : TracerState :=
  { st with shutdown_flag := true }

/-! ## The assembly engine (the processing-thread lambda of the Tracer
constructor, implementation file) -/

/-- ReadableSpanData: the open-span index entry created on span-start. -/
structure OpenSpan where
  name_hash : Nat
  parent_id : Nat
  cause_id : Nat
  attributes : List Attribute
deriving DecidableEq

/-- The open-span index, std::map from span id to ReadableSpanData. -/
abbrev SpanIndex := List (Nat × OpenSpan)

/-- std::map operator[] assignment: insert or overwrite under the key. -/
def mapPut (m : SpanIndex) (k : Nat) (v : OpenSpan) : SpanIndex :=
  (k, v) :: m.filter (fun kv => kv.1 != k)

/-- std::map erase by key. -/
def mapErase (m : SpanIndex) (k : Nat) : SpanIndex :=
  m.filter (fun kv => kv.1 != k)

/-- The ancestor walk of the implicit-causality logic (the while loop of the
event branch): follow parent links through the open-span index until an
entry with a non-invalid cause is found (that cause is the result), or until
the current id is the invalid sentinel or has no entry (result invalid).
The source loop has no other exit.  The fuel argument bounds the loop
iterations still allowed; none means the loop is still running after that
many iterations. -/
def causeWalkFuel (spans : SpanIndex) : Nat → Nat → Option Nat
  | _, 0 => none
  | cur, fuel + 1 =>
    if cur = kInvalidId then some kInvalidId
    else
      match lookupKey cur spans with
      | none => some kInvalidId
      | some e =>
          if e.cause_id ≠ kInvalidId then some e.cause_id
          else causeWalkFuel spans e.parent_id fuel

/-- Effective cause of an event tracelet: the event's own cause when
non-invalid (used verbatim, the walk is skipped), otherwise the ancestor
walk starting at the event's parent. -/
def effectiveCauseFuel (spans : SpanIndex) (t : Tracelet) (fuel : Nat) : Option Nat :=
  if t.cause_id ≠ kInvalidId then some t.cause_id
  else causeWalkFuel spans t.parent_span_id fuel

/-- The walk never finishes from the given start, whatever iteration bound
is allowed: the source while loop diverges. -/
def walkDiverges (spans : SpanIndex) (start : Nat) : Prop :=
  ∀ fuel, causeWalkFuel spans start fuel = none

/-- An emitted event record of the processing thread (the printed causal
link): the event's name hash and its resolved effective cause. -/
structure EventRecord where
  name_hash : Nat
  effective_cause : Nat
deriving DecidableEq

/-- State of the background processing thread: the shutdown flag it
observes, the ring it drains, its private open-span index and the log of
emitted event records. -/
structure EngineState where
  shutdown_flag : Bool
  queue : RingState Tracelet
  active_spans : SpanIndex
  emitted : List EventRecord

/-- Process one popped tracelet (the switch of the processing thread):
span-start inserts an open-span entry, span-end erases the matching entry,
an event resolves its effective cause and logs a record.  none models the
divergence of the source's walk loop (still running after walkFuel
iterations). -/
def processTracelet (walkFuel : Nat) (s : EngineState) (t : Tracelet) :
    Option EngineState :=
  match t.record_type with
  | RecordType.SPAN_START =>
      let e : OpenSpan :=
        { name_hash := t.name_string_hash, parent_id := t.parent_span_id,
          cause_id := t.cause_id, attributes := t.attributes }
      some { s with active_spans := mapPut s.active_spans t.span_id e }
  | RecordType.SPAN_END =>
      some { s with active_spans := mapErase s.active_spans t.span_id }
  | RecordType.EVENT =>
      match effectiveCauseFuel s.active_spans t walkFuel with
      | some c => some { s with emitted := s.emitted ++ [⟨t.name_string_hash, c⟩] }
      | none => none

/-- The processing-thread loop: while the shutdown flag is unset, pop and
process one tracelet, or sleep when the ring yields nothing; the loop exits
— returning the state at exit — as soon as it observes the flag set.  none
means the loop has not exited within fuel iterations (or an event walk
diverged). -/
def workerRun (walkFuel : Nat) : Nat → EngineState → Option EngineState
  | 0, _ => none
  | fuel + 1, s =>
    if s.shutdown_flag then some s
    else
      match tryPop s.queue with
      | (some t, q) =>
          match processTracelet walkFuel { s with queue := q } t with
          | some s1 => workerRun walkFuel fuel s1
          | none => none
      | (none, q) => workerRun walkFuel fuel { s with queue := q }

/-- The effective-cause relation as the spec words it: from a parent id, the
first ancestor — following parent links through the open-span index — whose
cause is non-invalid contributes its cause; the invalid sentinel when the
chain stops at an invalid parent or at a parent without an open-span
entry. -/
inductive WalkCause (spans : SpanIndex) : Nat → Nat → Prop where
  | stopInvalid : WalkCause spans kInvalidId kInvalidId
  | stopMissing (p : Nat) : p ≠ kInvalidId → lookupKey p spans = none →
      WalkCause spans p kInvalidId
  | found (p : Nat) (e : OpenSpan) : p ≠ kInvalidId →
      lookupKey p spans = some e → e.cause_id ≠ kInvalidId →
      WalkCause spans p e.cause_id
  | step (p : Nat) (e : OpenSpan) (c : Nat) : p ≠ kInvalidId →
      lookupKey p spans = some e → e.cause_id = kInvalidId →
      WalkCause spans e.parent_id c → WalkCause spans p c

/-- The spec's statement of the effective cause of an event tracelet: the
explicit cause verbatim when non-invalid, otherwise the walk relation from
the event's parent. -/
def EffCauseSpec (spans : SpanIndex) (t : Tracelet) (c : Nat) : Prop :=
  if t.cause_id ≠ kInvalidId then c = t.cause_id
  else WalkCause spans t.parent_span_id c

/-! ## Invariants and concrete scenario states -/

/-- Invariant of a ring state under sequential use: the counters are ordered
and within capacity, every claimed slot's ready flag is set, and the
capacity is a power of two with mask capacity - 1 — except in the degenerate
wrapped-capacity-zero case, where the ring must be (and stays) empty. -/
def SeqInv {T : Type} (s : RingState T) : Prop :=
  s.head ≤ s.tail ∧ s.tail - s.head ≤ s.capacity ∧
  (∀ j, s.head ≤ j → j < s.tail → s.readyFlags (j &&& s.mask) = true) ∧
  ((∃ k, s.capacity = 2 ^ k ∧ s.mask = s.capacity - 1) ∨
    (s.capacity = 0 ∧ s.tail = s.head))

/-- Name source used by the concrete scenarios below (a one-byte literal). -/
def spanNameSrc : StaticStringSource := mkStaticStringSource [114]

/-- Root span R: opened with the invalid parent sentinel.  Dispenses id 1. -/
def rootRun : TracerState × SpanH :=
  start_span tracerInit 0 spanNameSrc kInvalidId kInvalidId []

/-- Child span P: opened with R's span id as parent, exactly as the
WAFFLE_SPAN macro supplies the ambient span id.  Dispenses id 2. -/
def childRun : TracerState × SpanH :=
  start_span rootRun.1 0 spanNameSrc rootRun.2.span_id kInvalidId []

/-- Grandchild span G: opened with P's span id as parent.  Dispenses id 3. -/
def grandchildRun : TracerState × SpanH :=
  start_span childRun.1 0 spanNameSrc childRun.2.span_id kInvalidId []

/-- Tracer state right after shutdown() has stored true into the flag. -/
def shutTracer : TracerState := tracer_shutdown tracerInit

/-- An open-span index holding a parent cycle: span 1 has parent 2 and span
2 has parent 1, both without an explicit cause.  Such a state is reachable
through the public API by opening each span with the other's (not yet
dispensed) identifier as its parent argument. -/
def cycIndex : SpanIndex :=
  [(1, { name_hash := 0, parent_id := 2, cause_id := 0, attributes := [] }),
   (2, { name_hash := 0, parent_id := 1, cause_id := 0, attributes := [] })]

/-- An open-span index whose parent ids strictly decrease: span 2 under span
1, span 1 a root carrying explicit cause 5. -/
def decIndex : SpanIndex :=
  [(2, { name_hash := 0, parent_id := 1, cause_id := 0, attributes := [] }),
   (1, { name_hash := 0, parent_id := 0, cause_id := 5, attributes := [] })]

/-- The open-span index of spec scenario S2: span 2 (nested child, no
explicit cause) under span 1 (explicit cause 42). -/
def s2Index : SpanIndex :=
  [(2, { name_hash := 0, parent_id := 1, cause_id := 0, attributes := [] }),
   (1, { name_hash := 0, parent_id := 0, cause_id := 42, attributes := [] })]

/-- The event tracelet of spec scenario S2: parent span 2, no explicit
cause. -/
def s2Event : Tracelet :=
  { timestamp := 0, trace_id := 1, span_id := 2, parent_span_id := 2,
    cause_id := 0, name_string_hash := 7, record_type := RecordType.EVENT,
    attributes := [] }

/-- A span-start tracelet for span 1 (used to populate a ring). -/
def span1Start : Tracelet :=
  { timestamp := 0, trace_id := 1, span_id := 1, parent_span_id := 0,
    cause_id := 0, name_string_hash := 5, record_type := RecordType.SPAN_START,
    attributes := [] }

/-- A worker state at shutdown time: flag set, one tracelet still queued in
the ring (capacity 8192, as the Tracer constructor builds it), one
remaining open-span entry, nothing emitted yet. -/
def engShutdownState : EngineState :=
  { shutdown_flag := true,
    queue := (tryEmplace (freshRing Tracelet (next_power_of_two 8192)) span1Start).2,
    active_spans :=
      [(1, { name_hash := 5, parent_id := 0, cause_id := 0, attributes := [] })],
    emitted := [] }

/-- A concrete script exercising wrap-around on a capacity-2 ring: eight
operations push and pop past the capacity twice. -/
def c4ops : List (RingOp Nat) :=
  [RingOp.push 10, RingOp.push 20, RingOp.pop, RingOp.push 30, RingOp.pop,
   RingOp.push 40, RingOp.pop, RingOp.pop]

/-- A small interner table used by the first-write-wins witness: hash 5
already maps to the string [1, 2]. -/
def c10Map : StringMap := [(5, [1, 2])]

/-- Later registrations touching hash 5 with different strings, through all
three entry points. -/
def c10Ops : List InternOp :=
  [InternOp.regStatic 5 [9], InternOp.getDyn [1, 2],
   InternOp.getStatic { hash := 5, str := [7] }]

/-! # Theorems

## Correctness of the next_power_of_two bit smear -/

theorem smearStep_testBit (v k i : Nat) :
    (smearStep v k).testBit i = (v.testBit i || v.testBit (k + i)) := by
  simp [smearStep, Nat.testBit_or, Nat.testBit_shiftRight]

theorem smearStep_window {v s W : Nat}
    (h : ∀ i, s.testBit i = true ↔ ∃ d, d < W ∧ v.testBit (i + d) = true) :
    ∀ i, (smearStep s W).testBit i = true ↔
      ∃ d, d < W + W ∧ v.testBit (i + d) = true := by
  intro i
  rw [smearStep_testBit, Bool.or_eq_true, h i, h (W + i)]
  constructor
  · rintro (⟨d, hd, hbit⟩ | ⟨d, hd, hbit⟩)
    · exact ⟨d, by omega, hbit⟩
    · refine ⟨W + d, by omega, ?_⟩
      have he : W + i + d = i + (W + d) := by omega
      rwa [he] at hbit
  · rintro ⟨d, hd, hbit⟩
    by_cases hdW : d < W
    · exact Or.inl ⟨d, hdW, hbit⟩
    · refine Or.inr ⟨d - W, by omega, ?_⟩
      have he : W + i + (d - W) = i + d := by omega
      rwa [he]

theorem smear_testBit (v : Nat) :
    ∀ i, (smear v).testBit i = true ↔ ∃ d, d < 64 ∧ v.testBit (i + d) = true := by
  have h1 : ∀ i, v.testBit i = true ↔ ∃ d, d < 1 ∧ v.testBit (i + d) = true := by
    intro i
    constructor
    · exact fun h => ⟨0, Nat.zero_lt_one, by simpa using h⟩
    · rintro ⟨d, hd, hbit⟩
      have hd0 : d = 0 := by omega
      subst hd0
      simpa using hbit
  have h2 := smearStep_window h1
  have h4 := smearStep_window h2
  have h8 := smearStep_window h4
  have h16 := smearStep_window h8
  have h32 := smearStep_window h16
  have h64 := smearStep_window h32
  exact h64

theorem testBit_size_pred {v : Nat} (hv : 0 < v) :
    v.testBit (Nat.size v - 1) = true := by
  have hpos : 0 < Nat.size v := Nat.size_pos.mpr hv
  have hle : 2 ^ (Nat.size v - 1) ≤ v := Nat.lt_size.mp (by omega)
  have hlt : v < 2 ^ Nat.size v := Nat.lt_size_self v
  have he : Nat.size v - 1 + 1 = Nat.size v := by omega
  have h2v : v < 2 ^ (Nat.size v - 1) * 2 := by
    have hs : (2:Nat) ^ (Nat.size v - 1) * 2 = 2 ^ (Nat.size v - 1 + 1) :=
      (Nat.pow_succ 2 _).symm
    rw [hs, he]
    exact hlt
  have hdiv : v / 2 ^ (Nat.size v - 1) = 1 :=
    Nat.div_eq_of_lt_le (by omega) (by omega)
  rw [Nat.testBit_to_div_mod, hdiv]
  decide

theorem smear_eq_pow_size {v : Nat} (hv : 0 < v) (hlt : v < wordSize) :
    smear v = 2 ^ Nat.size v - 1 := by
  have hsize : Nat.size v ≤ 64 := Nat.size_le.mpr hlt
  apply Nat.eq_of_testBit_eq
  intro i
  rw [Nat.testBit_two_pow_sub_one]
  by_cases hi : i < Nat.size v
  · rw [decide_eq_true hi]
    refine (smear_testBit v i).mpr ⟨Nat.size v - 1 - i, by omega, ?_⟩
    have he : i + (Nat.size v - 1 - i) = Nat.size v - 1 := by omega
    rw [he]
    exact testBit_size_pred hv
  · rw [decide_eq_false hi]
    apply Bool.eq_false_iff.mpr
    intro hc
    rcases (smear_testBit v i).mp hc with ⟨d, hd, hbit⟩
    have hge := Nat.testBit_implies_ge hbit
    have : i + d < Nat.size v := Nat.lt_size.mpr hge
    omega

theorem npot_eq_pow_size {n : Nat} (h2 : 2 ≤ n) (h63 : n ≤ 2 ^ 63) :
    next_power_of_two n = 2 ^ Nat.size (n - 1) := by
  have hpow : (2:Nat) ^ 63 < 2 ^ 64 := by norm_num
  have hv : 0 < n - 1 := by omega
  have hlt : n - 1 < wordSize := by unfold wordSize; omega
  have hsize : Nat.size (n - 1) ≤ 63 := Nat.size_le.mpr (by omega)
  have hple : 2 ^ Nat.size (n - 1) ≤ 2 ^ 63 :=
    Nat.pow_le_pow_right (by norm_num) hsize
  have hppos : 0 < 2 ^ Nat.size (n - 1) := Nat.pos_pow_of_pos _ (by norm_num)
  unfold next_power_of_two
  rw [if_neg (by omega), smear_eq_pow_size hv hlt]
  have he : 2 ^ Nat.size (n - 1) - 1 + 1 = 2 ^ Nat.size (n - 1) := by omega
  rw [he]
  apply Nat.mod_eq_of_lt
  unfold wordSize
  omega

theorem clog_eq_size {n : Nat} (h2 : 2 ≤ n) :
    Nat.clog 2 n = Nat.size (n - 1) := by
  have hv : 0 < n - 1 := by omega
  have hpos : 0 < Nat.size (n - 1) := Nat.size_pos.mpr hv
  apply Nat.le_antisymm
  · have hub : n ≤ 2 ^ Nat.size (n - 1) := by
      have := Nat.lt_size_self (n - 1)
      omega
    exact (Nat.le_pow_iff_clog_le (by norm_num)).mp hub
  · have hlb : 2 ^ (Nat.size (n - 1) - 1) < n := by
      have hm : Nat.size (n - 1) - 1 < Nat.size (n - 1) := by omega
      have := Nat.lt_size.mp hm
      omega
    have := (Nat.pow_lt_iff_lt_clog (by norm_num)).mp hlb
    omega

theorem size_one_eq : Nat.size 1 = 1 := by
  have h1 : Nat.size 1 ≤ 1 := Nat.size_le.mpr (by norm_num)
  have h2 : 0 < Nat.size 1 := Nat.size_pos.mpr (by norm_num)
  omega

theorem npot_eq_spec {n : Nat} (h1 : 0 < n) (h63 : n ≤ 2 ^ 63) :
    next_power_of_two n = specNextPow2 n := by
  rcases Nat.lt_or_ge n 2 with h | h
  · have hn1 : n = 1 := by omega
    subst hn1
    unfold specNextPow2
    have hm : max 2 1 = 2 := by omega
    rw [hm, clog_eq_size (by omega)]
    have h21 : (2:Nat) - 1 = 1 := rfl
    rw [h21, size_one_eq]
    rfl
  · rw [npot_eq_pow_size h h63]
    unfold specNextPow2
    rw [Nat.max_eq_right h, clog_eq_size h]

theorem npot_pow_or_zero {n : Nat} (h1 : 0 < n) (h64 : n < wordSize) :
    (∃ k, k ≤ 63 ∧ next_power_of_two n = 2 ^ k) ∨ next_power_of_two n = 0 := by
  rcases Nat.lt_or_ge n 2 with h | h
  · left
    have hn1 : n = 1 := by omega
    subst hn1
    exact ⟨1, by omega, rfl⟩
  rcases le_or_lt n (2 ^ 63) with h63 | h63
  · left
    refine ⟨Nat.size (n - 1), ?_, npot_eq_pow_size h h63⟩
    apply Nat.size_le.mpr
    omega
  · right
    have hpow : (2:Nat) ^ 63 < 2 ^ 64 := by norm_num
    have hv : 0 < n - 1 := by omega
    have hlt : n - 1 < wordSize := by unfold wordSize at *; omega
    have hs : Nat.size (n - 1) = 64 := by
      apply Nat.le_antisymm (Nat.size_le.mpr hlt)
      have h63' : 63 < Nat.size (n - 1) := Nat.lt_size.mpr (by omega)
      omega
    unfold next_power_of_two
    rw [if_neg (by omega), smear_eq_pow_size hv hlt, hs]
    have hp : 0 < (2:Nat) ^ 64 := Nat.pos_pow_of_pos _ (by norm_num)
    have he : (2:Nat) ^ 64 - 1 + 1 = 2 ^ 64 := by omega
    rw [he]
    unfold wordSize
    exact Nat.mod_self _

/-! ## Sequential behaviour of the ring buffer -/

theorem freshRing_mask (T : Type) [Inhabited T] {cap : Nat} (h1 : 0 < cap)
    (h2 : cap < wordSize) : (freshRing T cap).mask = cap - 1 := by
  show (cap + (wordSize - 1)) % wordSize = cap - 1
  have hw : 0 < wordSize := by unfold wordSize; positivity
  have he : cap + (wordSize - 1) = (cap - 1) + 1 * wordSize := by omega
  rw [he, Nat.add_mul_mod_self_right, Nat.mod_eq_of_lt (by omega)]

theorem absList_length {T : Type} (s : RingState T) :
    (absList s).length = s.tail - s.head := by
  simp [absList]

theorem absList_fresh (T : Type) [Inhabited T] (cap : Nat) :
    absList (freshRing T cap) = [] := by
  simp [absList, freshRing]

theorem seqInv_fresh (T : Type) [Inhabited T] {n : Nat} (h1 : 0 < n)
    (h64 : n < wordSize) : SeqInv (freshRing T (next_power_of_two n)) := by
  refine ⟨Nat.le_refl 0, by simp [freshRing], ?_, ?_⟩
  · intro j hj hj2
    simp only [freshRing] at hj2
    omega
  rcases npot_pow_or_zero h1 h64 with ⟨k, hk, hnp⟩ | hz
  · left
    refine ⟨k, hnp, ?_⟩
    have hcap1 : 0 < next_power_of_two n := by rw [hnp]; positivity
    have hcap2 : next_power_of_two n < wordSize := by
      rw [hnp]
      have h1 : (2:Nat) ^ k ≤ 2 ^ 63 := Nat.pow_le_pow_right (by norm_num) hk
      have h2 : (2:Nat) ^ 63 < 2 ^ 64 := by norm_num
      unfold wordSize
      omega
    rw [freshRing_mask T hcap1 hcap2]
    rfl
  · right
    exact ⟨hz, rfl⟩

theorem absList_cons {T : Type} (s : RingState T) (h : s.head < s.tail) :
    absList s = s.buffer (s.head &&& s.mask) ::
      (List.range (s.tail - (s.head + 1))).map
        (fun j => s.buffer ((s.head + 1 + j) &&& s.mask)) := by
  unfold absList
  have ht : s.tail - s.head = (s.tail - (s.head + 1)) + 1 := by omega
  rw [ht]
  apply List.ext_getElem
  · simp
  · intro i h1 h2
    rcases i with _ | i
    · simp
    · simp only [List.getElem_map, List.getElem_range, List.getElem_cons_succ]
      congr 2
      omega

theorem mod_ne_of_lt_of_sub_lt {m a b : Nat} (hab : a < b) (hsub : b - a < m) :
    ¬ b % m = a % m := by
  intro h
  have hmod : a ≡ b [MOD m] := h.symm
  have hdvd := (Nat.modEq_iff_dvd' (Nat.le_of_lt hab)).mp hmod
  have := Nat.le_of_dvd (by omega) hdvd
  omega

theorem tryEmplace_full {T : Type} (s : RingState T) (v : T)
    (h : s.capacity ≤ s.tail - s.head) : tryEmplace s v = (false, s) := by
  simp [tryEmplace, h]

theorem tryEmplace_ok {T : Type} (s : RingState T) (v : T)
    (hInv : SeqInv s) (h : s.tail - s.head < s.capacity) :
    (tryEmplace s v).1 = true ∧
    SeqInv (tryEmplace s v).2 ∧
    absList (tryEmplace s v).2 = absList s ++ [v] := by
  obtain ⟨hle, hbound, hflags, hcap⟩ := hInv
  rcases hcap with ⟨k, hck, hmk⟩ | ⟨hc0, hth⟩
  swap
  · omega
  have hnot : ¬ s.capacity ≤ s.tail - s.head := by omega
  have hmod : ∀ i, i &&& s.mask = i % 2 ^ k := by
    intro i
    rw [hmk, hck]
    exact Nat.and_pow_two_sub_one_eq_mod i k
  refine ⟨by simp [tryEmplace, hnot], ⟨?_, ?_, ?_, ?_⟩, ?_⟩
  · simp only [tryEmplace, if_neg hnot]
    omega
  · simp only [tryEmplace, if_neg hnot]
    omega
  · simp only [tryEmplace, if_neg hnot]
    intro j hj1 hj2
    by_cases hjt : j &&& s.mask = s.tail &&& s.mask
    · simp [hjt]
    · have hjlt : j < s.tail := by
        rcases Nat.lt_succ_iff_lt_or_eq.mp hj2 with h' | h'
        · exact h'
        · exact absurd (by rw [h']) hjt
      simp only [if_neg hjt]
      exact hflags j hj1 hjlt
  · left
    exact ⟨k, by simpa [tryEmplace, hnot] using hck,
      by simpa [tryEmplace, hnot] using hmk⟩
  · simp only [tryEmplace, if_neg hnot, absList]
    have ht : s.tail + 1 - s.head = (s.tail - s.head) + 1 := by omega
    rw [ht, List.range_succ, List.map_append]
    congr 1
    · apply List.map_congr_left
      intro j hj
      have hjlt : j < s.tail - s.head := List.mem_range.mp hj
      have hne : ¬ (s.head + j) &&& s.mask = s.tail &&& s.mask := by
        rw [hmod, hmod]
        have hc2 : s.tail - (s.head + j) < 2 ^ k := by omega
        intro hh
        exact mod_ne_of_lt_of_sub_lt (a := s.head + j) (b := s.tail)
          (by omega) hc2 hh.symm
      simp [hne]
    · have he : s.head + (s.tail - s.head) = s.tail := by omega
      simp [he]

theorem tryPop_empty {T : Type} (s : RingState T) (h : s.head = s.tail) :
    tryPop s = (none, s) := by
  simp [tryPop, h]

theorem tryPop_ok {T : Type} (s : RingState T) (hInv : SeqInv s)
    (h : s.head < s.tail) :
    (tryPop s).1 = some (s.buffer (s.head &&& s.mask)) ∧
    SeqInv (tryPop s).2 ∧
    absList s = s.buffer (s.head &&& s.mask) :: absList (tryPop s).2 := by
  obtain ⟨hle, hbound, hflags, hcap⟩ := hInv
  rcases hcap with ⟨k, hck, hmk⟩ | ⟨hc0, hth⟩
  swap
  · omega
  have hne : ¬ s.head = s.tail := by omega
  have hmod : ∀ i, i &&& s.mask = i % 2 ^ k := by
    intro i
    rw [hmk, hck]
    exact Nat.and_pow_two_sub_one_eq_mod i k
  have hflag : s.readyFlags (s.head &&& s.mask) = true := hflags s.head (by omega) h
  refine ⟨by simp [tryPop, hne, hflag], ⟨?_, ?_, ?_, ?_⟩, ?_⟩
  · simp only [tryPop, if_neg hne, hflag, if_pos]
    omega
  · simp only [tryPop, if_neg hne, hflag, if_pos]
    omega
  · simp only [tryPop, if_neg hne, hflag, if_pos]
    intro j hj1 hj2
    have hneq : ¬ j &&& s.mask = s.head &&& s.mask := by
      rw [hmod, hmod]
      have hc2 : j - s.head < 2 ^ k := by omega
      exact mod_ne_of_lt_of_sub_lt (a := s.head) (b := j) (by omega) hc2
    simp only [if_neg hneq]
    exact hflags j (by omega) hj2
  · left
    exact ⟨k, by simpa [tryPop, hne, hflag] using hck,
      by simpa [tryPop, hne, hflag] using hmk⟩
  · have hpop2h : (tryPop s).2.head = s.head + 1 := by simp [tryPop, hne, hflag]
    have hpop2t : (tryPop s).2.tail = s.tail := by simp [tryPop, hne, hflag]
    have hpop2b : (tryPop s).2.buffer = s.buffer := by simp [tryPop, hne, hflag]
    have hpop2m : (tryPop s).2.mask = s.mask := by simp [tryPop, hne, hflag]
    rw [absList_cons s h]
    congr 1
    unfold absList
    simp only [hpop2h, hpop2t, hpop2b, hpop2m]

theorem runOps_abs {T : Type} (s : RingState T) (ops : List (RingOp T))
    (hInv : SeqInv s) :
    SeqInv (runOps s ops).state ∧
    (runOps s ops).popped ++ absList (runOps s ops).state =
      absList s ++ (runOps s ops).pushed := by
  induction ops generalizing s with
  | nil => simpa [runOps] using hInv
  | cons op rest ih =>
    cases op with
    | push v =>
      by_cases hfull : s.capacity ≤ s.tail - s.head
      · have he := tryEmplace_full s v hfull
        simp only [runOps, he]
        simpa using ih s hInv
      · obtain ⟨hb, hInv2, habs⟩ := tryEmplace_ok s v hInv (by omega)
        obtain ⟨ihInv, ihabs⟩ := ih (tryEmplace s v).2 hInv2
        simp only [runOps, hb, if_pos]
        refine ⟨ihInv, ?_⟩
        rw [ihabs, habs]
        simp
    | pop =>
      by_cases hempty : s.head = s.tail
      · have he := tryPop_empty s hempty
        simp only [runOps, he]
        simpa using ih s hInv
      · have hlt : s.head < s.tail := Nat.lt_of_le_of_ne hInv.1 hempty
        obtain ⟨hb, hInv2, habs⟩ := tryPop_ok s hInv hlt
        obtain ⟨ihInv, ihabs⟩ := ih (tryPop s).2 hInv2
        simp only [runOps, hb]
        refine ⟨ihInv, ?_⟩
        rw [habs]
        simpa using ihabs

theorem emplaceRun_fill {T : Type} [Inhabited T] (k : Nat) :
    ∀ s : RingState T, s.head ≤ s.tail → s.tail - s.head + k ≤ s.capacity →
      ∃ s', emplaceRun s k = some s' ∧ s'.head = s.head ∧
        s'.tail = s.tail + k ∧ s'.capacity = s.capacity := by
  induction k with
  | zero => exact fun s _ _ => ⟨s, rfl, rfl, rfl, rfl⟩
  | succ k ih =>
    intro s hle hcap
    have hnot : ¬ s.capacity ≤ s.tail - s.head := by omega
    have hb : (tryEmplace s default).1 = true := by simp [tryEmplace, hnot]
    have hh : (tryEmplace s default).2.head = s.head := by
      simp [tryEmplace, hnot]
    have ht : (tryEmplace s default).2.tail = s.tail + 1 := by
      simp [tryEmplace, hnot]
    have hc : (tryEmplace s default).2.capacity = s.capacity := by
      simp [tryEmplace, hnot]
    obtain ⟨s', h1, h2, h3, h4⟩ :=
      ih (tryEmplace s default).2 (by omega) (by omega)
    refine ⟨s', ?_, by omega, by omega, by omega⟩
    simp only [emplaceRun, hb, if_pos]
    exact h1

/-! ## Claim C3: capacity correctness -/

theorem specNextPow2_pos (n : Nat) : 0 < specNextPow2 n :=
  Nat.pos_pow_of_pos _ (by norm_num)

/-- C3 counterexample: at requested capacity 2 ^ 63 + 1 the claim fails.
next_power_of_two wraps to 0 in size_t arithmetic, the constructor
nevertheless succeeds (it only rejects a zero request), and the very first
try_emplace already returns false — the ring accepts 0 enqueues, not the
claimed next-power-of-two(max(n,2)), which is positive. -/
theorem c3_counterexample :
    (mkRing Unit (2 ^ 63 + 1)).toOption.map
      (fun s => (tryEmplace s ()).1) = some false ∧
    next_power_of_two (2 ^ 63 + 1) = 0 ∧
    0 < specNextPow2 (2 ^ 63 + 1) := by
  exact ⟨by decide, by decide, specNextPow2_pos _⟩

/-- C3 (amended): for every requested capacity n with 0 < n ≤ 2 ^ 63, the
constructed ring accepts exactly next-power-of-two(max(n,2)) consecutive
successful try_emplace calls starting from empty — the source's
next_power_of_two agrees with that count on this range — and the next
try_emplace returns false; construction with capacity 0 fails. -/
theorem c3_capacity_correct (n : Nat) (h1 : 0 < n) (h2 : n ≤ 2 ^ 63) :
    (∃ sF, mkRing Unit n = Except.ok (freshRing Unit (next_power_of_two n)) ∧
      emplaceRun (freshRing Unit (next_power_of_two n)) (specNextPow2 n) = some sF ∧
      tryEmplace sF () = (false, sF)) ∧
    mkRing Unit 0 = Except.error "Capacity cannot be zero." := by
  constructor
  swap
  · rfl
  have hmk : mkRing Unit n = Except.ok (freshRing Unit (next_power_of_two n)) := by
    simp [mkRing, Nat.pos_iff_ne_zero.mp h1]
  have hspec : specNextPow2 n = next_power_of_two n := (npot_eq_spec h1 h2).symm
  obtain ⟨sF, hrun, hh, ht, hc⟩ :=
    emplaceRun_fill (next_power_of_two n)
      (freshRing Unit (next_power_of_two n)) (by simp [freshRing])
      (by simp [freshRing])
  refine ⟨sF, hmk, ?_, ?_⟩
  · rw [hspec]
    exact hrun
  · have hfull : sF.capacity ≤ sF.tail - sF.head := by
      simp only [freshRing] at hh ht hc
      omega
    exact tryEmplace_full sF () hfull

/-- Witness for c3_capacity_correct at the concrete capacity 3 (rounded to
4). -/
theorem c3_capacity_witness :
    0 < 3 ∧ (3:Nat) ≤ 2 ^ 63 ∧
    ((∃ sF, mkRing Unit 3 = Except.ok (freshRing Unit (next_power_of_two 3)) ∧
      emplaceRun (freshRing Unit (next_power_of_two 3)) (specNextPow2 3) = some sF ∧
      tryEmplace sF () = (false, sF)) ∧
    mkRing Unit 0 = Except.error "Capacity cannot be zero.") :=
  ⟨by norm_num, by norm_num, c3_capacity_correct 3 (by norm_num) (by norm_num)⟩

/-! ## Claim C4: FIFO round trip -/

/-- C4 (confirmed): on any ring obtained from the constructor, for any
sequence of sequential try_emplace / try_pop calls, the values returned by
the successful pops are exactly the first values among those successfully
enqueued, in enqueue order — FIFO, including across wrap-around. -/
theorem c4_fifo {T : Type} [Inhabited T] (n : Nat) (h64 : n < wordSize)
    (s0 : RingState T) (hok : mkRing T n = Except.ok s0)
    (ops : List (RingOp T)) :
    (runOps s0 ops).popped =
      (runOps s0 ops).pushed.take (runOps s0 ops).popped.length := by
  have hn : n ≠ 0 := by
    intro h0
    subst h0
    simp [mkRing] at hok
  have hs : s0 = freshRing T (next_power_of_two n) := by
    simp only [mkRing, if_neg hn, Except.ok.injEq] at hok
    exact hok.symm
  subst hs
  have hInv := seqInv_fresh T (Nat.pos_of_ne_zero hn) h64
  have habs := (runOps_abs _ ops hInv).2
  rw [absList_fresh, List.nil_append] at habs
  rw [← habs, List.take_left]

/-- Witness for c4_fifo: a capacity-2 ring (requested capacity 2) under the
eight-operation wrap-around script, with the resulting pop order computed
explicitly. -/
theorem c4_fifo_witness :
    (2:Nat) < wordSize ∧
    mkRing Nat 2 = Except.ok (freshRing Nat (next_power_of_two 2)) ∧
    (runOps (freshRing Nat (next_power_of_two 2)) c4ops).popped =
      (runOps (freshRing Nat (next_power_of_two 2)) c4ops).pushed.take
        (runOps (freshRing Nat (next_power_of_two 2)) c4ops).popped.length ∧
    (runOps (freshRing Nat (next_power_of_two 2)) c4ops).popped =
      [10, 20, 30, 40] :=
  ⟨by norm_num [wordSize], rfl,
    c4_fifo 2 (by norm_num [wordSize]) _ rfl c4ops, by decide⟩

/-! ## Claim C1: trace-identifier derivation in start_span -/

/-- C1 (code bug, flagged by the source's own TODO): for the root span the
trace id equals the new span's own id, but for a non-root span start_span
uses the parent's span id as the trace id instead of inheriting the
parent's trace id.  Concretely: R (id 1, root) has trace id 1; P (id 2,
parent R) has trace id 1; G (id 3, parent P) receives trace id 2 — P's span
id — although P's trace id is 1.  The enqueued span-start tracelets carry
the same aliased trace ids. -/
theorem c1_trace_id_aliased :
    rootRun.2.trace_id = 1 ∧ rootRun.2.span_id = 1 ∧
    childRun.2.trace_id = 1 ∧ childRun.2.span_id = 2 ∧
    grandchildRun.2.trace_id = 2 ∧
    grandchildRun.2.trace_id ≠ childRun.2.trace_id ∧
    (absList grandchildRun.1.queue).map Tracelet.trace_id = [1, 1, 2] := by
  decide

/-! ## Claim C5: hot-path operations after shutdown -/

/-- C5 (code bug): after shutdown has set the flag, start_span and
create_event enqueue nothing, but end_span still enqueues a span-end
tracelet — its body lacks the shutdown check its siblings have. -/
theorem c5_end_span_not_noop :
    shutTracer.shutdown_flag = true ∧
    (absList (end_span shutTracer 0 1 1).queue).length = 1 ∧
    (absList (end_span shutTracer 0 1 1).queue).map Tracelet.record_type =
      [RecordType.SPAN_END] ∧
    absList (start_span shutTracer 0 spanNameSrc kInvalidId kInvalidId []).1.queue = [] ∧
    absList (create_event shutTracer 0 spanNameSrc kInvalidId kInvalidId []).queue = [] := by
  decide

/-! ## Claim C2: effective-cause resolution -/

theorem causeWalk_sound (spans : SpanIndex) :
    ∀ fuel cur c : Nat, causeWalkFuel spans cur fuel = some c →
      WalkCause spans cur c := by
  intro fuel
  induction fuel with
  | zero =>
    intro cur c h
    simp [causeWalkFuel] at h
  | succ fuel ih =>
    intro cur c h
    by_cases hcur : cur = kInvalidId
    · simp only [causeWalkFuel, if_pos hcur, Option.some.injEq] at h
      rw [hcur, ← h]
      exact WalkCause.stopInvalid
    · cases hlk : lookupKey cur spans with
      | none =>
        simp only [causeWalkFuel, if_neg hcur, hlk, Option.some.injEq] at h
        rw [← h]
        exact WalkCause.stopMissing cur hcur hlk
      | some e =>
        by_cases hc : e.cause_id ≠ kInvalidId
        · simp only [causeWalkFuel, if_neg hcur, hlk, if_pos hc,
            Option.some.injEq] at h
          rw [← h]
          exact WalkCause.found cur e hcur hlk hc
        · have hc0 : e.cause_id = kInvalidId := by omega
          have hstep : causeWalkFuel spans cur (fuel + 1) =
              causeWalkFuel spans e.parent_id fuel := by
            simp [causeWalkFuel, hcur, hlk, hc0]
          rw [hstep] at h
          exact WalkCause.step cur e c hcur hlk hc0 (ih e.parent_id c h)

/-- C2 (confirmed): whenever the engine's effective-cause computation for an
event tracelet completes (the while loop exits within some number of
iterations), the result is exactly what the spec describes: the event's own
cause verbatim when non-invalid; otherwise the cause of the first ancestor
reached through the open-span index whose cause is non-invalid; and the
invalid sentinel when the walk stops at an invalid parent or at a parent
with no open-span entry. -/
theorem c2_effective_cause (spans : SpanIndex) (t : Tracelet) (fuel c : Nat)
    (h : effectiveCauseFuel spans t fuel = some c) : EffCauseSpec spans t c := by
  unfold effectiveCauseFuel at h
  unfold EffCauseSpec
  by_cases hc : t.cause_id ≠ kInvalidId
  · rw [if_pos hc] at h ⊢
    exact (Option.some.injEq _ _ ▸ h).symm
  · rw [if_neg hc] at h ⊢
    exact causeWalk_sound spans fuel _ c h

/-- Witness for c2_effective_cause at the index and event of spec scenario
S2: the event inherits cause 42 from its grandparent span through the
cause-less parent span. -/
theorem c2_effective_cause_witness :
    effectiveCauseFuel s2Index s2Event 3 = some 42 ∧
    EffCauseSpec s2Index s2Event 42 :=
  ⟨by decide, c2_effective_cause s2Index s2Event 3 42 (by decide)⟩

/-! ## Claim C9: termination of the ancestor walk -/

theorem cycWalk_none : ∀ fuel,
    causeWalkFuel cycIndex 1 fuel = none ∧
    causeWalkFuel cycIndex 2 fuel = none := by
  intro fuel
  induction fuel with
  | zero => exact ⟨rfl, rfl⟩
  | succ fuel ih =>
    constructor
    · have hstep : causeWalkFuel cycIndex 1 (fuel + 1) =
          causeWalkFuel cycIndex 2 fuel := by
        simp [causeWalkFuel, cycIndex, lookupKey, kInvalidId]
      rw [hstep]
      exact ih.2
    · have hstep : causeWalkFuel cycIndex 2 (fuel + 1) =
          causeWalkFuel cycIndex 1 fuel := by
        simp [causeWalkFuel, cycIndex, lookupKey, kInvalidId]
      rw [hstep]
      exact ih.1

/-- C9 counterexample: on an open-span index holding a parent cycle — span 1
with parent 2 and span 2 with parent 1, both cause-less, a state reachable
through the public API by passing a not-yet-dispensed id as a parent — the
while loop started at parent 1 never terminates, although the index holds
only two open spans. -/
theorem c9_counterexample : walkDiverges cycIndex 1 ∧ cycIndex.length = 2 :=
  ⟨fun fuel => (cycWalk_none fuel).1, rfl⟩

theorem filter_impl_length {A : Type} (l : List A) (p q : A → Bool)
    (h : ∀ a, p a = true → q a = true) :
    (l.filter p).length ≤ (l.filter q).length := by
  induction l with
  | nil => simp
  | cons a rest ih =>
    rw [List.filter_cons, List.filter_cons]
    cases hp : p a with
    | true =>
      rw [h a hp]
      simp only [if_pos rfl]
      simpa using ih
    | false =>
      cases hq : q a with
      | true => simp only [if_pos rfl, Bool.false_eq_true, if_false]; simp; omega
      | false => simpa using ih

theorem filter_strict_length {A : Type} (l : List A) (p q : A → Bool)
    (h : ∀ a, p a = true → q a = true) (a0 : A) (ha : a0 ∈ l)
    (hq0 : q a0 = true) (hp0 : p a0 = false) :
    (l.filter p).length < (l.filter q).length := by
  induction l with
  | nil => cases ha
  | cons b rest ih =>
    rw [List.filter_cons, List.filter_cons]
    rcases List.mem_cons.mp ha with hb | hb
    · subst hb
      rw [hp0, hq0]
      have := filter_impl_length rest p q h
      simp
      omega
    · have hlt := ih hb
      cases hpb : p b with
      | true =>
        rw [h b hpb]
        simp
        omega
      | false =>
        cases hqb : q b with
        | true => simp; omega
        | false => simpa using hlt

theorem lookupKey_mem {A : Type} {k : Nat} {v : A} :
    ∀ {m : List (Nat × A)}, lookupKey k m = some v → (k, v) ∈ m := by
  intro m
  induction m with
  | nil => intro h; simp [lookupKey] at h
  | cons kv rest ih =>
    intro h
    obtain ⟨k1, v1⟩ := kv
    by_cases hk : k = k1
    · simp only [lookupKey, if_pos hk, Option.some.injEq] at h
      rw [hk, ← h]
      exact List.mem_cons_self _ _
    · simp only [lookupKey, if_neg hk] at h
      exact List.mem_cons_of_mem _ (ih h)

theorem causeWalk_terminates_aux (spans : SpanIndex)
    (hdec : ∀ p e, lookupKey p spans = some e → e.parent_id < p) :
    ∀ fuel cur : Nat,
      (spans.filter (fun kv => decide (kv.1 ≤ cur))).length < fuel →
      (causeWalkFuel spans cur fuel).isSome = true := by
  intro fuel
  induction fuel with
  | zero =>
    intro cur h
    omega
  | succ fuel ih =>
    intro cur h
    by_cases hcur : cur = kInvalidId
    · simp [causeWalkFuel, hcur]
    · cases hlk : lookupKey cur spans with
      | none => simp [causeWalkFuel, hcur, hlk]
      | some e =>
        by_cases hc : e.cause_id ≠ kInvalidId
        · simp [causeWalkFuel, hcur, hlk, hc]
        · have hc0 : e.cause_id = kInvalidId := by omega
          have hstep : causeWalkFuel spans cur (fuel + 1) =
              causeWalkFuel spans e.parent_id fuel := by
            simp [causeWalkFuel, hcur, hlk, hc0]
          rw [hstep]
          apply ih
          have hpar : e.parent_id < cur := hdec cur e hlk
          have hmem : (cur, e) ∈ spans := lookupKey_mem hlk
          have hstrict := filter_strict_length spans
            (fun kv => decide (kv.1 ≤ e.parent_id))
            (fun kv => decide (kv.1 ≤ cur))
            (fun a ha => by simp at ha ⊢; omega) (cur, e) hmem
            (by simp) (by simp; omega)
          omega

/-- C9 (amended): whenever each open-span entry's parent id is smaller than
its own span id — which holds when parents are previously dispensed
identifiers — the ancestor walk terminates within (number of open spans) + 1
loop iterations from any start; only indices with a parent cycle, obtainable
by supplying a not-yet-dispensed parent id, make the loop diverge. -/
theorem c9_walk_terminates (spans : SpanIndex)
    (hdec : ∀ p e, lookupKey p spans = some e → e.parent_id < p)
    (start : Nat) :
    (causeWalkFuel spans start (spans.length + 1)).isSome = true := by
  apply causeWalk_terminates_aux spans hdec
  have := List.length_filter_le (fun kv => decide (kv.1 ≤ start)) spans
  omega

/-- Witness for c9_walk_terminates on a concrete two-entry parent-decreasing
index, started at the deepest span. -/
theorem c9_walk_terminates_witness :
    (causeWalkFuel decIndex 2 (decIndex.length + 1)).isSome = true :=
  c9_walk_terminates decIndex
    (by
      intro p e h
      simp only [decIndex, lookupKey] at h
      split_ifs at h with h1 h2
      · injection h with h'
        rw [h1, ← h']
        decide
      · injection h with h'
        rw [h2, ← h']
        decide)
    2

/-! ## Claim C6: worker loop exit at shutdown -/

theorem processTracelet_flag (wf : Nat) (s : EngineState) (t : Tracelet)
    (s1 : EngineState) (h : processTracelet wf s t = some s1) :
    s1.shutdown_flag = s.shutdown_flag := by
  unfold processTracelet at h
  cases ht : t.record_type with
  | SPAN_START =>
    rw [ht] at h
    injection h with h'
    rw [← h']
  | SPAN_END =>
    rw [ht] at h
    injection h with h'
    rw [← h']
  | EVENT =>
    rw [ht] at h
    cases hec : effectiveCauseFuel s.active_spans t wf with
    | none => rw [hec] at h; cases h
    | some c =>
      rw [hec] at h
      injection h with h'
      rw [← h']

theorem workerRun_no_exit (wf : Nat) :
    ∀ (fuel : Nat) (s : EngineState), s.shutdown_flag = false →
      workerRun wf fuel s = none := by
  intro fuel
  induction fuel with
  | zero => intro s _; rfl
  | succ fuel ih =>
    intro s h
    have hw : workerRun wf (fuel + 1) s =
        match tryPop s.queue with
        | (some t, q) =>
            match processTracelet wf { s with queue := q } t with
            | some s1 => workerRun wf fuel s1
            | none => none
        | (none, q) => workerRun wf fuel { s with queue := q } := by
      simp only [workerRun, h, Bool.false_eq_true, if_false]
    rw [hw]
    cases hp : tryPop s.queue with
    | mk o q =>
      cases o with
      | some t =>
        show (match processTracelet wf { s with queue := q } t with
          | some s1 => workerRun wf fuel s1
          | none => none) = none
        cases hpt : processTracelet wf { s with queue := q } t with
        | some s1 =>
          apply ih
          rw [processTracelet_flag wf _ t s1 hpt]
          exact h
        | none => rfl
      | none =>
        show workerRun wf fuel { s with queue := q } = none
        exact ih _ h

/-- C6 counterexample: with the shutdown flag set, one tracelet still queued
and one open-span entry present, the worker loop exits at once — the ring
keeps its queued tracelet, the open-span entry is not drained, and no
leaked-open record (indeed nothing at all) is emitted, contradicting the
claim that exit happens only on an empty ring and is preceded by a one-shot
leaked-open drain. -/
theorem c6_counterexample :
    (workerRun 5 5 engShutdownState).map
        (fun r => ((absList r.queue).length, r.active_spans.length,
          r.emitted.length)) = some (1, 1, 0) ∧
    engShutdownState.shutdown_flag = true := by
  decide

/-- C6 (amended): the worker loop exits exactly when it observes the
shutdown flag set, and immediately: the state returned at exit is the state
at loop entry — queued tracelets are not drained first, no leaked-open
records are emitted, and remaining open-span entries are simply abandoned
with the index. -/
theorem c6_worker_exit (wf fuel : Nat) (s r : EngineState)
    (h : workerRun wf fuel s = some r) : s.shutdown_flag = true ∧ r = s := by
  cases fuel with
  | zero => cases h
  | succ fuel =>
    cases hs : s.shutdown_flag with
    | true =>
      refine ⟨rfl, ?_⟩
      simp only [workerRun, hs, if_true] at h
      injection h with h'
      rw [h']
    | false =>
      rw [workerRun_no_exit wf (fuel + 1) s hs] at h
      cases h

/-- Witness for c6_worker_exit at the concrete shutdown state. -/
theorem c6_worker_exit_witness :
    engShutdownState.shutdown_flag = true ∧
    engShutdownState = engShutdownState :=
  c6_worker_exit 1 1 engShutdownState engShutdownState rfl

/-! ## Claim C7: at most one span-end per handle -/

theorem lineageEmits_dead (ops : List SpanOp) :
    ∀ h : SpanH, (h.is_ended || !h.hasTracer) = true → lineageEmits h ops = 0 := by
  induction ops with
  | nil =>
    intro h hd
    have hcond : (!h.is_ended && h.hasTracer) = false := by
      revert hd
      cases h.is_ended <;> cases h.hasTracer <;> simp
    simp [lineageEmits, spanDtorEmits, hcond]
  | cons op rest ih =>
    intro h hd
    cases op with
    | endCall =>
      have hse : spanEnd h = (h, []) := by simp [spanEnd, hd]
      simp [lineageEmits, hse, ih h hd]
    | moveAway =>
      have hdt : spanDtorEmits { h with hasTracer := false, is_ended := true } = [] := by
        simp [spanDtorEmits]
      simp [lineageEmits, spanMove, hdt, ih h hd]

theorem lineageEmits_le (ops : List SpanOp) :
    ∀ h : SpanH, lineageEmits h ops ≤ 1 := by
  induction ops with
  | nil =>
    intro h
    simp only [lineageEmits, spanDtorEmits, spanEnd]
    split_ifs <;> simp
  | cons op rest ih =>
    intro h
    cases op with
    | endCall =>
      cases hd : (h.is_ended || !h.hasTracer) with
      | true =>
        have hse : spanEnd h = (h, []) := by simp [spanEnd, hd]
        simpa [lineageEmits, hse] using ih h
      | false =>
        have hse : spanEnd h =
            ({ h with is_ended := true }, [(h.trace_id, h.span_id)]) := by
          simp [spanEnd, hd]
        have hzero := lineageEmits_dead rest { h with is_ended := true } (by simp)
        simp [lineageEmits, hse, hzero]
    | moveAway =>
      have hdt : spanDtorEmits { h with hasTracer := false, is_ended := true } = [] := by
        simp [spanDtorEmits]
      simpa [lineageEmits, spanMove, hdt] using ih h

/-- C7 (confirmed): over any sequence of end() calls and moves followed by
destruction, a handle lineage makes at most one end_span call; a
default-constructed handle and a moved-from source never emit; the
destructor of an active handle emits exactly the span-end for its trace and
span ids; and a second end() after the first is a no-op. -/
theorem c7_span_end_once (t sp p : Nat) (ops ops2 ops3 : List SpanOp)
    (h : SpanH) :
    lineageEmits (spanFromCtor t sp p) ops ≤ 1 ∧
    lineageEmits spanDefault ops2 = 0 ∧
    lineageEmits (spanMove h).2 ops3 = 0 ∧
    spanDtorEmits (spanFromCtor t sp p) = [(t, sp)] ∧
    (spanEnd (spanEnd (spanFromCtor t sp p)).1).2 = [] :=
  ⟨lineageEmits_le ops _,
    lineageEmits_dead ops2 _ (by simp [spanDefault]),
    lineageEmits_dead ops3 _ (by simp [spanMove]),
    by simp [spanDtorEmits, spanFromCtor, spanEnd],
    by simp [spanEnd, spanFromCtor]⟩

/-! ## Claim C8: ambient save and restore -/

/-- C8 counterexample: a handle constructed with explicit parent id 42 on a
thread whose ambient id is the invalid sentinel installs its own id 7; its
end() then sets the ambient to 42 — the handle's parent id — not back to the
ambient value that was current at construction: no saved copy exists, and
the ambient does not return to the invalid sentinel. -/
theorem c8_counterexample :
    ambientAfterCtor (spanFromCtor 7 7 42) kInvalidId = 7 ∧
    ambientAfterEnd (spanFromCtor 7 7 42)
      (ambientAfterCtor (spanFromCtor 7 7 42) kInvalidId) = 42 ∧
    (42 : Nat) ≠ kInvalidId := by
  decide

theorem runForest_restores (f : Nest) :
    ∀ amb nid : Nat, (runForest amb nid f).1 = amb := by
  induction f with
  | nil => intro amb nid; rfl
  | node inner rest ihInner ihRest =>
    intro amb nid
    simp only [runForest, ambientAfterCtor, ambientAfterEnd, spanFromCtor]
    exact ihRest amb _

/-- C8 (amended): construction installs the handle's own id as ambient and
saves nothing; end() sets the ambient to the handle's parent id.  When every
handle's parent argument equals the ambient current at its construction — as
the WAFFLE_SPAN macro arranges by passing the ambient id — any well-nested
single-thread usage returns the ambient to its initial value, in particular
to the invalid sentinel. -/
theorem c8_ambient (t sp p amb amb2 nid : Nat) (f : Nest) :
    ambientAfterCtor (spanFromCtor t sp p) amb = sp ∧
    ambientAfterEnd (spanFromCtor t sp p) amb2 = p ∧
    (runForest amb nid f).1 = amb ∧
    (runForest kInvalidId nid f).1 = kInvalidId :=
  ⟨rfl, by simp [ambientAfterEnd, spanFromCtor],
    runForest_restores f amb nid, runForest_restores f kInvalidId nid⟩

/-! ## Claim C10: interner first-write-wins -/

theorem lookupKey_emplace {m : StringMap} {h : Nat} {s0 : List Nat}
    (hm : lookupKey h m = some s0) (h2 : Nat) (s2 : List Nat) :
    lookupKey h (emplaceStr m h2 s2) = some s0 := by
  unfold emplaceStr
  cases hlk : lookupKey h2 m with
  | some _ => exact hm
  | none =>
    by_cases he : h = h2
    · rw [he] at hm
      rw [hm] at hlk
      cases hlk
    · simp only [lookupKey, if_neg he]
      exact hm

theorem applyInterns_keeps {m : StringMap} {h : Nat} {s0 : List Nat}
    (hm : lookupKey h m = some s0) :
    ∀ l, lookupKey h (applyInterns m l) = some s0 := by
  intro l
  induction l generalizing m with
  | nil => exact hm
  | cons op rest ih =>
    show lookupKey h (applyInterns (applyIntern m op) rest) = some s0
    apply ih
    cases op with
    | regStatic h2 s2 => exact lookupKey_emplace hm h2 s2
    | getStatic src => exact lookupKey_emplace hm src.hash src.str
    | getDyn s => exact lookupKey_emplace hm (fnv1a s) s

/-- C10 (confirmed): the interner is first-write-wins — once a hash maps to
a string, any later sequence of registrations through
register_static_string or either get_string_id overload leaves the stored
string unchanged — and get_string_id still returns the FNV-1a hash of its
argument (the static overload returns the hash its StaticStringSource
constructor computed with FNV-1a). -/
theorem c10_interner_first_write_wins (m : StringMap) (h : Nat)
    (s0 : List Nat) (hm : lookupKey h m = some s0) (l : List InternOp)
    (s str : List Nat) :
    lookupKey h (applyInterns m l) = some s0 ∧
    (get_string_id_dyn m s).1 = fnv1a s ∧
    (get_string_id_static m (mkStaticStringSource str)).1 = fnv1a str :=
  ⟨applyInterns_keeps hm l, rfl, rfl⟩

/-- Witness for c10_interner_first_write_wins: hash 5 maps to [1, 2]; after
three further registrations under hash 5 the stored string is
unchanged. -/
theorem c10_interner_witness :
    lookupKey 5 c10Map = some [1, 2] ∧
    (lookupKey 5 (applyInterns c10Map c10Ops) = some [1, 2] ∧
      (get_string_id_dyn c10Map [3]).1 = fnv1a [3] ∧
      (get_string_id_static c10Map (mkStaticStringSource [4])).1 = fnv1a [4]) :=
  ⟨by decide, c10_interner_first_write_wins c10Map 5 [1, 2] (by decide) c10Ops [3] [4]⟩

end Waffle
